import Mathlib

/-!
Shallow embedding of the media composition pipeline implemented in
src/components/VideoMaker.tsx.  Pure helpers (clamp, extOf, escapeDrawtext)
become Lean functions over rational numbers and character lists; the
createVideo run becomes a function that returns the trace of engine calls
(write, delete, execute, read) together with the terminal outcome.  The
encoding engine itself is external to the repository; where a claim needs
its behaviour (filter text unescaping, scale filter geometry) the model is
written from the documented behaviour and marked as such.
-/

/-- Backslash character, written by code point to keep literals simple. -/
def bslChar : Char := Char.ofNat 92

/-- Single quote character, written by code point. -/
def quoChar : Char := Char.ofNat 39

/-- Dot character. -/
def dotChar : Char := Char.ofNat 46

/-- Colon character. -/
def colonChar : Char := Char.ofNat 58

/-- One character string holding the single quote. -/
def quoStr : String := String.mk [quoChar]

/-- Global single character replacement, the model of text.replace(/c/g, rep)
for a one character pattern. -/
def replaceAll (c : Char) (rep : List Char) : List Char → List Char
  | [] => []
  | x :: xs => (if x = c then rep else [x]) ++ replaceAll c rep xs

/-- escapeDrawtext from VideoMaker.tsx lines 293 to 299: replace every colon,
then every single quote, then every backslash, each by a backslash escaped
form.  The replacements are applied in exactly the source order, so the
backslash replacement runs last, over the output of the first two. -/
def escapeDrawtext (text : String) : String :=
  String.mk (replaceAll bslChar [bslChar, bslChar]
    (replaceAll quoChar [bslChar, quoChar]
      (replaceAll colonChar [bslChar, colonChar] text.data)))

/-- Modelled from the spec: the filter syntax of the external encoding engine
removes one level of backslash escaping when it parses an escaped text
argument.  A backslash followed by any character yields that character. -/
def unescapeFilter : List Char → List Char
  | [] => []
  | [x] => [x]
  | x :: y :: xs =>
    if x = bslChar then y :: unescapeFilter xs
    else x :: unescapeFilter (y :: xs)

/-- clamp from VideoMaker.tsx line 284: Math.max(min, Math.min(max, n)). -/
def clamp (n mi ma : ℚ) : ℚ := max mi (min ma n)

/-- Index of the last dot in a character list, minus one when there is none;
the model of name.lastIndexOf in extOf. -/
def lastIndexOfDot : List Char → Int
  | [] => -1
  | x :: xs =>
    let r := lastIndexOfDot xs
    if 0 ≤ r then r + 1
    else if x = dotChar then 0 else -1

/-- List level body of extOf: take the suffix from the last dot when the
index is non negative, the empty list otherwise. -/
def extData (l : List Char) : List Char :=
  let i := lastIndexOfDot l
  if 0 ≤ i then l.drop i.toNat else []

/-- extOf from VideoMaker.tsx lines 288 to 291: the suffix of the name from
the last dot inclusive, or the empty string when the name has no dot. -/
def extOf (name : String) : String := String.mk (extData name.data)

/-- Staged input name from VideoMaker.tsx line 108: input underscore index
followed by the extension of the original file name. -/
def stagedName (i : ℕ) (fileName : String) : String :=
  "input_" ++ toString i ++ extOf fileName

/-- Per item clip name from VideoMaker.tsx line 109. -/
def partName (i : ℕ) : String := "part_" ++ toString i ++ ".mp4"

/-- Rounding used by the source through Math.round on non negative values:
floor of the argument plus one half. -/
def jsRound (q : ℚ) : ℤ := Int.floor (q + 1/2)

/-- Natural number form of jsRound for the non negative uses in the source. -/
def jsRoundNat (q : ℚ) : ℕ := (jsRound q).toNat

/-- Scale, pad and sample aspect normalization filter text from
VideoMaker.tsx line 112, with the target width and height spliced in. -/
def scalePad (w h : ℕ) : String :=
  "scale=" ++ toString w ++
  ":-2:force_original_aspect_ratio=decrease,pad=" ++ toString w ++
  ":" ++ toString h ++
  ":(ow-iw)/2:(oh-ih)/2:color=black,setsar=1"

/-- Text overlay stage with the four value holes of the source template:
font file, escaped text, font size and vertical offset. -/
def overlayStage (fontPath text : String) (fontSize yOff : ℕ) : String :=
  "drawtext=fontfile=" ++ fontPath ++
  ":text=" ++ quoStr ++ text ++ quoStr ++
  ":fontcolor=white:fontsize=" ++ toString fontSize ++
  ":x=(w-text_w)/2:y=h-(" ++ toString yOff ++
  "):shadowcolor=0x000000@0.5:shadowx=2:shadowy=2"

/-- Text overlay stage as built in VideoMaker.tsx lines 115 to 117: the font
size is Math.round of the smaller target dimension over 18, the vertical
offset is Math.round of the target height over 8. -/
def drawtextStage (w h : ℕ) (fontPath caption : String) : String :=
  overlayStage fontPath (escapeDrawtext caption)
    (jsRoundNat (((min w h : ℕ) : ℚ) / 18))
    (jsRoundNat ((h : ℚ) / 8))

/-- Caption condition from VideoMaker.tsx line 113: the trimmed caption is
non empty and the font path string is truthy, that is non empty. -/
def hasCaption (caption fontPath : String) : Bool :=
  decide (0 < caption.trim.length) && decide (fontPath ≠ "")

/-- Filter expression for one item, VideoMaker.tsx lines 112 to 118. -/
def vfFor (w h : ℕ) (fontPath caption : String) : String :=
  if hasCaption caption fontPath then
    scalePad w h ++ "," ++ drawtextStage w h fontPath caption
  else scalePad w h

/-- Modelled from the spec: geometry of the external engine scale filter for
the parameters appearing in scalePad.  With a target height of -2 the output
width is the requested width and the output height is the aspect preserving
height rounded to the nearest even integer; the decrease option leaves the
already aspect matched pair unchanged. -/
def scaleNeg2Dims (sw sh targetW : ℕ) : ℕ × ℕ :=
  (targetW, 2 * jsRoundNat ((sh : ℚ) * targetW / (2 * sw)))

/-- Modelled from the spec: a scaled image fits within the target bounds when
neither dimension exceeds the corresponding target dimension. -/
def fitsWithin (d : ℕ × ℕ) (targetW targetH : ℕ) : Prop :=
  d.1 ≤ targetW ∧ d.2 ≤ targetH

/-- A visual item of the data model: identity, source file name, caption text
and duration in seconds.  File bytes are not tracked by the embedding. -/
structure MediaItem where
  id : String
  fileName : String
  caption : String
  durationSec : ℚ
deriving DecidableEq

/-- Patch a single field, the model of the object spread in updateItem. -/
def setDuration (it : MediaItem) (d : ℚ) : MediaItem :=
  { it with durationSec := d }

/-- updateItem from VideoMaker.tsx lines 64 to 66: map over the list and
patch exactly the items whose identity matches. -/
def updateItem (items : List MediaItem) (ident : String)
    (patch : MediaItem → MediaItem) : List MediaItem :=
  items.map (fun it => if it.id = ident then patch it else it)

/-- Duration change handler from VideoMaker.tsx line 245: the entered value
is clamped to the interval from 0.2 to 120 before being stored. -/
def onDurationChange (items : List MediaItem) (ident : String) (v : ℚ) :
    List MediaItem :=
  updateItem items ident (fun it => setDuration it (clamp v (0.2 : ℚ) 120))

/-- Argument of an engine command: either a literal string or a number that
the source converts with the String function. -/
inductive Arg where
  | s : String → Arg
  | n : ℚ → Arg
deriving DecidableEq

/-- Observable engine events of one run: engine load, directory listing,
file deletion, file write, command execution and artifact read. -/
inductive Ev where
  | load : Ev
  | listDir : Ev
  | deleteFile : String → Ev
  | writeFile : String → Ev
  | execCmd : List Arg → Ev
  | readFile : String → Ev
deriving DecidableEq

/-- Per item render command from VideoMaker.tsx lines 120 to 133, with the
leading -y of the exec call from line 133. -/
def renderCmd (w h fps : ℕ) (fontPath : String) (i : ℕ) (it : MediaItem) :
    List Arg :=
  [Arg.s "-y", Arg.s "-loop", Arg.s "1",
   Arg.s "-t", Arg.n (max (0.2 : ℚ) it.durationSec),
   Arg.s "-i", Arg.s (stagedName i it.fileName),
   Arg.s "-r", Arg.n (fps : ℚ),
   Arg.s "-vf", Arg.s (vfFor w h fontPath it.caption),
   Arg.s "-an",
   Arg.s "-c:v", Arg.s "libx264",
   Arg.s "-pix_fmt", Arg.s "yuv420p",
   Arg.s "-movflags", Arg.s "+faststart",
   Arg.s (partName i)]

/-- Concat command from VideoMaker.tsx line 142. -/
def concatCmd : List Arg :=
  [Arg.s "-y", Arg.s "-f", Arg.s "concat", Arg.s "-safe", Arg.s "0",
   Arg.s "-i", Arg.s "concat_list.txt", Arg.s "-c", Arg.s "copy",
   Arg.s "output_video.mp4"]

/-- Audio mux command from VideoMaker.tsx lines 150 to 161. -/
def muxCmd : List Arg :=
  [Arg.s "-y",
   Arg.s "-i", Arg.s "output_video.mp4",
   Arg.s "-i", Arg.s "audio_in",
   Arg.s "-shortest",
   Arg.s "-map", Arg.s "0:v:0",
   Arg.s "-map", Arg.s "1:a:0",
   Arg.s "-c:v", Arg.s "copy",
   Arg.s "-c:a", Arg.s "aac",
   Arg.s "-b:a", Arg.s "192k",
   Arg.s "final.mp4"]

/-- Outcome of one createVideo run: the engine event trace, the name of the
file read at the end when one is read, whether the artifact URL state is set
and whether the success message path ran. -/
structure RunResult where
  trace : List Ev
  finalRead : Option String
  videoUrlSet : Bool
  success : Bool
deriving DecidableEq

/-- Scratch cleanup events from VideoMaker.tsx lines 84 to 92: one listing,
then one delete per prior entry whose name is truthy and neither the current
nor the parent directory marker. -/
def cleanupEvs (prior : List String) : List Ev :=
  Ev.listDir ::
    (prior.filter
      (fun nm => !(nm == "") && !(nm == ".") && !(nm == ".."))).map Ev.deleteFile

/-- Font path resulting from the best effort font staging of VideoMaker.tsx
lines 94 to 102: the staged name on success, the empty string on failure. -/
def fontPathOf (fontOk : Bool) : String := if fontOk then "font.ttf" else ""

/-- Events of the render loop of VideoMaker.tsx lines 106 to 135 when every
render succeeds: per item one staged write and one exec. -/
def renderEvsAll (w h fps : ℕ) (fontPath : String) :
    List (ℕ × MediaItem) → List Ev
  | [] => []
  | p :: rest =>
    Ev.writeFile (stagedName p.1 p.2.fileName) ::
    Ev.execCmd (renderCmd w h fps fontPath p.1 p.2) ::
    renderEvsAll w h fps fontPath rest

/-- Render loop with a failure oracle over commands: the loop stops at the
first failing exec, mirroring the exception escaping the for loop. -/
def renderPhase (w h fps : ℕ) (fontPath : String)
    (execFails : List Arg → Bool) :
    List (ℕ × MediaItem) → List Ev × Bool
  | [] => ([], true)
  | p :: rest =>
    let cmd := renderCmd w h fps fontPath p.1 p.2
    if execFails cmd then
      ([Ev.writeFile (stagedName p.1 p.2.fileName), Ev.execCmd cmd], false)
    else
      let r := renderPhase w h fps fontPath execFails rest
      (Ev.writeFile (stagedName p.1 p.2.fileName) ::
        Ev.execCmd cmd :: r.1, r.2)

/-- createVideo from VideoMaker.tsx lines 74 to 181, as a function of the
prior scratch entries, the item snapshot, audio presence, the render
parameters, the font staging outcome and a failure oracle for engine
commands.  Engine load, stat, write and read operations are modelled as
succeeding; a failing exec outside the mux step escapes to the outer catch,
which reports failure, while a failing mux exec is caught locally and the
run falls back to the concat output. -/
def createVideo (prior : List String) (items : List MediaItem)
    (audio : Bool) (w h fps : ℕ) (fontOk : Bool)
    (execFails : List Arg → Bool) : RunResult :=
  let fontPath := fontPathOf fontOk
  let fontEv : List Ev := if fontOk then [Ev.writeFile "font.ttf"] else []
  let pre := (Ev.load :: cleanupEvs prior) ++ fontEv
  let rp := renderPhase w h fps fontPath execFails items.enum
  if rp.2 then
    let evs2 := pre ++ rp.1 ++
      [Ev.writeFile "concat_list.txt", Ev.execCmd concatCmd]
    if execFails concatCmd then
      { trace := evs2, finalRead := none, videoUrlSet := false, success := false }
    else if audio then
      let finalName :=
        if execFails muxCmd then "output_video.mp4" else "final.mp4"
      { trace := evs2 ++ [Ev.writeFile "audio_in", Ev.execCmd muxCmd,
          Ev.readFile finalName],
        finalRead := some finalName, videoUrlSet := true, success := true }
    else
      { trace := evs2 ++ [Ev.readFile "output_video.mp4"],
        finalRead := some "output_video.mp4",
        videoUrlSet := true, success := true }
  else
    { trace := pre ++ rp.1, finalRead := none,
      videoUrlSet := false, success := false }

/-- canCreate from VideoMaker.tsx line 72: a non empty item list and no run
in progress. -/
def canCreate (items : List MediaItem) (isBusy : Bool) : Bool :=
  decide (0 < items.length) && !isBusy

/-- Submission through the create button of VideoMaker.tsx line 256: the
button is disabled unless canCreate holds, so createVideo runs only then. -/
def submitVideo (prior : List String) (items : List MediaItem)
    (audio : Bool) (w h fps : ℕ) (fontOk isBusy : Bool)
    (execFails : List Arg → Bool) : Option RunResult :=
  if canCreate items isBusy then
    some (createVideo prior items audio w h fps fontOk execFails)
  else none

/-- Exec commands of a trace, in order. -/
def execsOf : List Ev → List (List Arg)
  | [] => []
  | Ev.execCmd c :: rest => c :: execsOf rest
  | _ :: rest => execsOf rest

/-- Failure oracle of a fully successful engine. -/
def noFail : List Arg → Bool := fun _ => false

/-- Failure oracle failing exactly one given command. -/
def failOnly (bad c : List Arg) : Bool := decide (c = bad)

/-- Sample item used by concrete witnesses. -/
def sampleItem : MediaItem :=
  { id := "a", fileName := "img.png", caption := "", durationSec := 3 }

/-- Sample item after the clamped duration patch with value 1000. -/
def sampleItemPatched : MediaItem :=
  { id := "a", fileName := "img.png", caption := "", durationSec := 120 }

/-! Helper lemmas shared by the claim theorems. -/

/-- A non negative last dot index is the same as the presence of a dot. -/
theorem lastIndexOfDot_nonneg_iff : ∀ l : List Char, 0 ≤ lastIndexOfDot l ↔ dotChar ∈ l
  | [] => by simp [lastIndexOfDot]
  | x :: xs => by
    have ih := lastIndexOfDot_nonneg_iff xs
    simp only [lastIndexOfDot, List.mem_cons]
    by_cases h : 0 ≤ lastIndexOfDot xs
    · rw [if_pos h]
      constructor
      · intro _
        exact Or.inr (ih.mp h)
      · intro _
        omega
    · rw [if_neg h]
      by_cases hx : x = dotChar
      · rw [if_pos hx]
        constructor
        · intro _
          exact Or.inl hx.symm
        · intro _
          exact le_refl 0
      · rw [if_neg hx]
        constructor
        · intro hc
          omega
        · rintro (h1 | h2)
          · exact absurd h1.symm hx
          · exact absurd (ih.mpr h2) h

/-- Without a dot the extension is empty. -/
theorem extData_eq_nil_of_not_mem (l : List Char) (h : dotChar ∉ l) : extData l = [] := by
  rw [extData, if_neg]
  intro hc
  exact h ((lastIndexOfDot_nonneg_iff l).mp hc)

/-- The extension of a longer name ignores a head character once the tail
holds a dot. -/
theorem extData_cons_of_mem (x : Char) (xs : List Char) (h : dotChar ∈ xs) :
    extData (x :: xs) = extData xs := by
  have hr : 0 ≤ lastIndexOfDot xs := (lastIndexOfDot_nonneg_iff xs).mpr h
  have h1 : lastIndexOfDot (x :: xs) = lastIndexOfDot xs + 1 := by
    simp only [lastIndexOfDot]
    rw [if_pos hr]
  have h2 : (lastIndexOfDot xs + 1).toNat = (lastIndexOfDot xs).toNat + 1 := by omega
  rw [extData, extData, h1, if_pos (by omega : (0:ℤ) ≤ lastIndexOfDot xs + 1), if_pos hr, h2,
    List.drop_succ_cons]

/-- The extension is the suffix from the last dot: the name splits before a
dot, the extension is that dot with the rest, and the rest has no dot. -/
theorem extData_last_dot : ∀ l : List Char, dotChar ∈ l →
    ∃ pre rest, l = pre ++ dotChar :: rest ∧ extData l = dotChar :: rest ∧ dotChar ∉ rest
  | [] => by simp
  | x :: xs => by
    intro hmem
    by_cases hxs : dotChar ∈ xs
    · obtain ⟨pre, rest, hsplit, hext, hnot⟩ := extData_last_dot xs hxs
      refine ⟨x :: pre, rest, ?_, ?_, hnot⟩
      · rw [List.cons_append, ← hsplit]
      · rw [extData_cons_of_mem x xs hxs, hext]
    · have hx : x = dotChar := by
        rcases List.mem_cons.mp hmem with h1 | h2
        · exact h1.symm
        · exact absurd h2 hxs
      have hr : ¬ 0 ≤ lastIndexOfDot xs := by
        intro hc
        exact hxs ((lastIndexOfDot_nonneg_iff xs).mp hc)
      have h1 : lastIndexOfDot (x :: xs) = 0 := by
        simp only [lastIndexOfDot]
        rw [if_neg hr, if_pos hx]
      refine ⟨[], xs, by rw [hx]; rfl, ?_, hxs⟩
      rw [extData, h1, if_pos (le_refl 0)]
      simp [hx]

/-- Appending the empty character list string is the identity. -/
theorem strAppendNil (s : String) : s ++ String.mk [] = s := by
  cases s with
  | mk d =>
    show String.mk (d ++ []) = String.mk d
    rw [List.append_nil]

/-- Trace extraction distributes over trace concatenation. -/
theorem execsOf_append (a b : List Ev) : execsOf (a ++ b) = execsOf a ++ execsOf b := by
  induction a with
  | nil => rfl
  | cons x xs ih => cases x <;> simp [execsOf, ih]

/-- Deletions contribute no exec commands. -/
theorem execsOf_map_delete : ∀ l : List String, execsOf (l.map Ev.deleteFile) = []
  | [] => rfl
  | _ :: rest => execsOf_map_delete rest

/-- The cleanup phase contributes no exec commands. -/
theorem execsOf_cleanup (prior : List String) : execsOf (cleanupEvs prior) = [] := by
  rw [cleanupEvs]
  show execsOf (List.map Ev.deleteFile _) = []
  exact execsOf_map_delete _

/-- The exec commands of the successful render phase are exactly one render
command per indexed item. -/
theorem execsOf_renderEvsAll (w h fps : ℕ) (fp : String) :
    ∀ l : List (ℕ × MediaItem),
      execsOf (renderEvsAll w h fps fp l) = l.map (fun p => renderCmd w h fps fp p.1 p.2)
  | [] => rfl
  | p :: rest => by
    simp [renderEvsAll, execsOf, execsOf_renderEvsAll w h fps fp rest]

/-- No artifact read happens inside the render phase events. -/
theorem readFile_not_mem_renderEvsAll (w h fps : ℕ) (fp : String) (x : String) :
    ∀ l : List (ℕ × MediaItem), Ev.readFile x ∉ renderEvsAll w h fps fp l
  | [] => by simp [renderEvsAll]
  | p :: rest => by
    simp [renderEvsAll, readFile_not_mem_renderEvsAll w h fps fp x rest]

/-- When no render command fails the render phase produces the full event
list and reports success. -/
theorem renderPhase_ok (w h fps : ℕ) (fp : String) (ef : List Arg → Bool) :
    ∀ l : List (ℕ × MediaItem),
      (∀ p ∈ l, ef (renderCmd w h fps fp p.1 p.2) = false) →
      renderPhase w h fps fp ef l = (renderEvsAll w h fps fp l, true)
  | [] => fun _ => rfl
  | p :: rest => fun hl => by
    have h1 : ef (renderCmd w h fps fp p.1 p.2) = false := hl p (List.mem_cons_self p rest)
    have h2 := renderPhase_ok w h fps fp ef rest (fun q hq => hl q (List.mem_cons_of_mem p hq))
    simp [renderPhase, h1, h2, renderEvsAll]

/-- Run shape when every render and the concat succeed: the run reaches the
read step, reports success, and the file read depends on audio presence and
on whether the mux command fails. -/
theorem createVideo_ok (prior : List String) (items : List MediaItem) (audio : Bool)
    (w h fps : ℕ) (fontOk : Bool) (ef : List Arg → Bool)
    (hr : ∀ p ∈ items.enum, ef (renderCmd w h fps (fontPathOf fontOk) p.1 p.2) = false)
    (hc : ef concatCmd = false) :
    createVideo prior items audio w h fps fontOk ef =
      { trace := (Ev.load :: cleanupEvs prior) ++
          (if fontOk then [Ev.writeFile "font.ttf"] else []) ++
          renderEvsAll w h fps (fontPathOf fontOk) items.enum ++
          [Ev.writeFile "concat_list.txt", Ev.execCmd concatCmd] ++
          (if audio then
            [Ev.writeFile "audio_in", Ev.execCmd muxCmd,
             Ev.readFile (if ef muxCmd then "output_video.mp4" else "final.mp4")]
           else [Ev.readFile "output_video.mp4"]),
        finalRead := some (if audio then
            (if ef muxCmd then "output_video.mp4" else "final.mp4")
          else "output_video.mp4"),
        videoUrlSet := true, success := true } := by
  rw [createVideo, renderPhase_ok w h fps (fontPathOf fontOk) ef items.enum hr]
  cases audio <;> simp [hc, List.append_assoc]

/-- A render command is never the mux command: they differ at the second
argument already. -/
theorem renderCmd_ne_muxCmd (w h fps : ℕ) (fp : String) (i : ℕ) (it : MediaItem) :
    renderCmd w h fps fp i it ≠ muxCmd := by
  intro hcontra
  have h1 := congrArg (fun l => l.get? 1) hcontra
  simp [renderCmd, muxCmd] at h1

/-- The concat command is not the mux command. -/
theorem concatCmd_ne_muxCmd : concatCmd ≠ muxCmd := by
  intro hcontra
  have h1 := congrArg (fun l => l.get? 1) hcontra
  simp [concatCmd, muxCmd] at h1

/-- Exec trace of a fully successful run: one render per item in order, the
concat command, and the mux command exactly when audio is present. -/
theorem createVideo_noFail_execs (prior : List String) (items : List MediaItem)
    (audio : Bool) (w h fps : ℕ) (fontOk : Bool) :
    execsOf (createVideo prior items audio w h fps fontOk noFail).trace =
      items.enum.map (fun p => renderCmd w h fps (fontPathOf fontOk) p.1 p.2) ++
      [concatCmd] ++ (if audio then [muxCmd] else []) := by
  rw [createVideo_ok prior items audio w h fps fontOk noFail (fun _ _ => rfl) rfl]
  cases audio <;> cases fontOk <;>
    simp [execsOf_append, execsOf_renderEvsAll, execsOf_map_delete, cleanupEvs, execsOf,
      List.append_assoc]

/-! Claim theorems. -/

/-- Claim C1, code bug evidence: for the one colon caption the escaping
function produces backslash backslash colon, because the backslash escape is
applied last and doubles the escape backslash inserted for the colon; one
level of filter unescaping then yields backslash colon, not the original
colon, so the round trip stated by the claim fails on the code. -/
theorem c1_escape_roundtrip_fails :
    escapeDrawtext (String.mk [colonChar]) = String.mk [bslChar, bslChar, colonChar] ∧
    unescapeFilter (escapeDrawtext (String.mk [colonChar])).data = [bslChar, colonChar] ∧
    unescapeFilter (escapeDrawtext (String.mk [colonChar])).data ≠ [colonChar] := by
  refine ⟨?_, ?_, ?_⟩ <;> decide

/-- Claim C2, code bug evidence: the produced filter text asks the scale
stage for width 1280 and height -2, so a portrait source of 720 by 1280
scales to 1280 by 2276, which does not fit within the 1280 by 720 target;
the claim says the scaled image fits within both target dimensions. -/
theorem c2_scale_overflow :
    scalePad 1280 720 =
      "scale=1280:-2:force_original_aspect_ratio=decrease,pad=1280:720:(ow-iw)/2:(oh-ih)/2:color=black,setsar=1" ∧
    scaleNeg2Dims 720 1280 1280 = (1280, 2276) ∧
    ¬ fitsWithin (scaleNeg2Dims 720 1280 1280) 1280 720 := by
  have hfloor : jsRound (((1280:ℕ) : ℚ) * (1280:ℕ) / (2 * (720:ℕ))) = 1138 := by
    rw [jsRound, Int.floor_eq_iff]
    norm_num
  have hdims : scaleNeg2Dims 720 1280 1280 = (1280, 2276) := by
    rw [scaleNeg2Dims, jsRoundNat, hfloor]
    rfl
  refine ⟨by decide, hdims, ?_⟩
  rw [hdims, fitsWithin]
  intro hcontra
  exact absurd hcontra.2 (by decide)

/-- Claim C4: with an empty item sequence the submission guard rejects the
run before createVideo is entered, so no engine load, no write or delete and
no exec event can occur. -/
theorem c4_empty_rejected (prior : List String) (audio : Bool) (w h fps : ℕ)
    (fontOk isBusy : Bool) (ef : List Arg → Bool) :
    submitVideo prior [] audio w h fps fontOk isBusy ef = none := by
  simp [submitVideo, canCreate]

/-- Claim C9: the clamp function maps every rational input into the interval
from 0.2 to 120, and after the identity keyed duration patch every item whose
identity matches stores a duration inside that interval. -/
theorem c9_duration_clamped (v : ℚ) :
    ((0.2:ℚ) ≤ clamp v 0.2 120 ∧ clamp v 0.2 120 ≤ 120) ∧
    ∀ (items : List MediaItem) (ident : String) (it : MediaItem),
      it ∈ onDurationChange items ident v → it.id = ident →
      (0.2:ℚ) ≤ it.durationSec ∧ it.durationSec ≤ 120 := by
  have hb : (0.2:ℚ) ≤ clamp v 0.2 120 ∧ clamp v 0.2 120 ≤ 120 := by
    constructor
    · exact le_max_left _ _
    · simp only [clamp]
      rcases max_cases (0.2:ℚ) (min 120 v) with ⟨h1, _⟩ | ⟨h1, _⟩ <;> rw [h1]
      · norm_num
      · exact min_le_left _ _
  refine ⟨hb, ?_⟩
  intro items ident it hmem hid
  rw [onDurationChange, updateItem] at hmem
  rcases List.mem_map.mp hmem with ⟨a, _, ha⟩
  by_cases hcase : a.id = ident
  · rw [if_pos hcase] at ha
    rw [← ha]
    simpa [setDuration] using hb
  · rw [if_neg hcase] at ha
    rw [← ha] at hid
    exact absurd hid hcase

/-- Claim C9 witness: patching the sample item with the entered value 1000
stores the clamped duration 120, inside the interval. -/
theorem c9_duration_clamped_witness :
    (sampleItemPatched ∈ onDurationChange [sampleItem] "a" 1000 ∧ sampleItemPatched.id = "a") ∧
    ((0.2:ℚ) ≤ sampleItemPatched.durationSec ∧ sampleItemPatched.durationSec ≤ 120) := by
  have hclamp : clamp 1000 (0.2:ℚ) 120 = 120 := by
    simp only [clamp, min_def, max_def]
    norm_num
  have hmem : sampleItemPatched ∈ onDurationChange [sampleItem] "a" 1000 := by
    simp [onDurationChange, updateItem, setDuration, sampleItem, sampleItemPatched, hclamp]
  have hid : sampleItemPatched.id = "a" := rfl
  exact ⟨⟨hmem, hid⟩, (c9_duration_clamped 1000).2 [sampleItem] "a" sampleItemPatched hmem hid⟩

/-- Claim C10: the staged input name is the input prefix with the index
followed by the extension of the file name; with no dot in the name the
staged name is exactly the input prefix with the index; and when the name
has a dot the extension is the suffix from the last dot. -/
theorem c10_staged_name (i : ℕ) (name : String) :
    stagedName i name = "input_" ++ toString i ++ extOf name ∧
    (dotChar ∉ name.data → stagedName i name = "input_" ++ toString i) ∧
    (dotChar ∈ name.data → ∃ pre rest, name.data = pre ++ dotChar :: rest ∧
      (extOf name).data = dotChar :: rest ∧ dotChar ∉ rest) := by
  refine ⟨rfl, ?_, ?_⟩
  · intro h
    rw [stagedName, extOf, extData_eq_nil_of_not_mem _ h, strAppendNil]
  · intro h
    obtain ⟨pre, rest, h1, h2, h3⟩ := extData_last_dot name.data h
    exact ⟨pre, rest, h1, h2, h3⟩

/-- Claim C10 witness: a file name without a dot stages with no extension. -/
theorem c10_staged_name_witness :
    dotChar ∉ ("photo" : String).data ∧ stagedName 0 "photo" = "input_" ++ toString 0 :=
  ⟨by decide, (c10_staged_name 0 "photo").2.1 (by decide)⟩

/-- Claim C6: the overlay stage is appended exactly when the trimmed caption
is non empty and a font is available, and then the stage carries white text,
a font size of Math.round of the smaller target dimension over 18, a
horizontally centered x expression, a y position of the frame height minus
Math.round of the target height over 8, and the fixed shadow offset. -/
theorem c6_overlay_condition (w h : ℕ) (fontPath caption : String) :
    vfFor w h fontPath caption =
      if 0 < caption.trim.length ∧ fontPath ≠ "" then
        scalePad w h ++ "," ++
        overlayStage fontPath (escapeDrawtext caption)
          (jsRoundNat (((min w h : ℕ) : ℚ) / 18))
          (jsRoundNat ((h : ℚ) / 8))
      else scalePad w h := by
  by_cases hc : 0 < caption.trim.length ∧ fontPath ≠ ""
  · rw [if_pos hc]
    have hb : hasCaption caption fontPath = true := by
      rw [hasCaption, Bool.and_eq_true, decide_eq_true_eq, decide_eq_true_eq]
      exact hc
    simp [vfFor, hb, drawtextStage]
  · rw [if_neg hc]
    have hb : hasCaption caption fontPath = false := by
      rw [← Bool.not_eq_true, hasCaption, Bool.and_eq_true, decide_eq_true_eq,
        decide_eq_true_eq]
      exact hc
    simp [vfFor, hb]

/-- Claim C5: on a fully successful run the exec trace holds exactly one
render command per item in order, then the concat command, then the mux
command exactly when audio is present; and every render command loops its
static input with a loop time of the maximum of 0.2 and the item duration,
uses the configured frame rate after the rate flag, and carries the no audio
flag. -/
theorem c5_render_invocations (prior : List String) (items : List MediaItem)
    (audio : Bool) (w h fps : ℕ) (fontOk : Bool) :
    execsOf (createVideo prior items audio w h fps fontOk noFail).trace =
      items.enum.map (fun p => renderCmd w h fps (fontPathOf fontOk) p.1 p.2) ++
      [concatCmd] ++ (if audio then [muxCmd] else []) ∧
    ∀ (i : ℕ) (it : MediaItem) (fp : String),
      (renderCmd w h fps fp i it).get? 1 = some (Arg.s "-loop") ∧
      (renderCmd w h fps fp i it).get? 2 = some (Arg.s "1") ∧
      (renderCmd w h fps fp i it).get? 3 = some (Arg.s "-t") ∧
      (renderCmd w h fps fp i it).get? 4 = some (Arg.n (max (0.2:ℚ) it.durationSec)) ∧
      (renderCmd w h fps fp i it).get? 7 = some (Arg.s "-r") ∧
      (renderCmd w h fps fp i it).get? 8 = some (Arg.n (fps : ℚ)) ∧
      Arg.s "-an" ∈ renderCmd w h fps fp i it := by
  constructor
  · exact createVideo_noFail_execs prior items audio w h fps fontOk
  · intro i it fp
    refine ⟨rfl, rfl, rfl, rfl, rfl, rfl, ?_⟩
    simp [renderCmd]

/-- Claim C8: without an audio asset the run reads the concat output as the
final artifact, the engine executes exactly one command per item plus the
concat command, and the mux command never runs. -/
theorem c8_no_audio (prior : List String) (items : List MediaItem)
    (w h fps : ℕ) (fontOk : Bool) :
    (createVideo prior items false w h fps fontOk noFail).finalRead =
      some "output_video.mp4" ∧
    (execsOf (createVideo prior items false w h fps fontOk noFail).trace).length =
      items.length + 1 ∧
    muxCmd ∉ execsOf (createVideo prior items false w h fps fontOk noFail).trace := by
  have he := createVideo_noFail_execs prior items false w h fps fontOk
  refine ⟨?_, ?_, ?_⟩
  · rw [createVideo_ok prior items false w h fps fontOk noFail (fun _ _ => rfl) rfl]
    rfl
  · rw [he]
    simp [List.enum_length]
  · rw [he]
    simp only [Bool.false_eq_true, if_false, List.append_nil, List.mem_append,
      List.mem_map, List.mem_singleton]
    rintro (⟨p, _, hp⟩ | hp)
    · exact renderCmd_ne_muxCmd w h fps (fontPathOf fontOk) p.1 p.2 hp
    · exact concatCmd_ne_muxCmd hp.symm

/-- Claim C3: when exactly the audio mux invocation fails, the run falls
back to the concat artifact: the file read at the end is the concat output,
the mux output is never read, and the run completes through the success path
with the artifact URL set. -/
theorem c3_mux_fallback (prior : List String) (items : List MediaItem)
    (w h fps : ℕ) (fontOk : Bool) :
    (createVideo prior items true w h fps fontOk (failOnly muxCmd)).finalRead =
      some "output_video.mp4" ∧
    (createVideo prior items true w h fps fontOk (failOnly muxCmd)).success = true ∧
    (createVideo prior items true w h fps fontOk (failOnly muxCmd)).videoUrlSet = true ∧
    Ev.readFile "final.mp4" ∉
      (createVideo prior items true w h fps fontOk (failOnly muxCmd)).trace := by
  have hr : ∀ p ∈ items.enum,
      failOnly muxCmd (renderCmd w h fps (fontPathOf fontOk) p.1 p.2) = false := by
    intro p _
    simp [failOnly, renderCmd_ne_muxCmd]
  have hc : failOnly muxCmd concatCmd = false := by
    simp [failOnly, concatCmd_ne_muxCmd]
  have hm : failOnly muxCmd muxCmd = true := by simp [failOnly]
  rw [createVideo_ok prior items true w h fps fontOk (failOnly muxCmd) hr hc]
  refine ⟨by simp [hm], rfl, rfl, ?_⟩
  simp [hm, cleanupEvs, readFile_not_mem_renderEvsAll]

/-- Claim C7: with the font staging failed the run still completes through
the success path, every item renders with the empty font path, and with the
empty font path the filter expression of every caption is the plain scale
and pad chain, with no text overlay stage. -/
theorem c7_font_fallback (prior : List String) (items : List MediaItem)
    (audio : Bool) (w h fps : ℕ) :
    (createVideo prior items audio w h fps false noFail).success = true ∧
    (createVideo prior items audio w h fps false noFail).videoUrlSet = true ∧
    (createVideo prior items audio w h fps false noFail).finalRead =
      some (if audio then "final.mp4" else "output_video.mp4") ∧
    execsOf (createVideo prior items audio w h fps false noFail).trace =
      items.enum.map (fun p => renderCmd w h fps "" p.1 p.2) ++ [concatCmd] ++
      (if audio then [muxCmd] else []) ∧
    ∀ caption : String, vfFor w h "" caption = scalePad w h := by
  refine ⟨?_, ?_, ?_, ?_, ?_⟩
  · rw [createVideo_ok prior items audio w h fps false noFail (fun _ _ => rfl) rfl]
  · rw [createVideo_ok prior items audio w h fps false noFail (fun _ _ => rfl) rfl]
  · rw [createVideo_ok prior items audio w h fps false noFail (fun _ _ => rfl) rfl]
    cases audio <;> rfl
  · exact createVideo_noFail_execs prior items audio w h fps false
  · intro caption
    simp [vfFor, hasCaption]
